import Mathlib

/-
A shallow embedding of the Battleships zkapp (mina-battleships).

Field elements of o1js are modelled as Nat: every arithmetic operation the
embedded code performs (add, mul, comparisons, bit decompositions) is applied
to values far below the Pasta base-field modulus, so Nat arithmetic agrees
with field arithmetic on the whole reachable domain.  Poseidon is treated as
a black box: every definition and theorem is parametric in a hash function
of type List Nat → Nat.  Assertions of the provable code become Option/Except
results: a failed assertion rejects the whole call.

Sources: src/provableUtils.ts (BoardUtils, BoardCircuit, AttackUtils,
AttackCircuit) and the Battleships contract (src/Battleships.ts together with
the salted method surface exercised by src/Battleships.test.ts).
-/

namespace Battleships

/-- Little-endian bit-field extraction: the width-bit slice of v that starts
at bit lo.  Models reading a contiguous group of a Field.toBits result. -/
def bitSlice (v lo width : Nat) : Nat := v / 2 ^ lo % 2 ^ width

/-- A ship as decoded from the 120-bit board serialization: x and y grid
coordinates plus the orientation flag z (0 = horizontal, 1 = vertical). -/
structure Ship where
  x : Nat
  y : Nat
  z : Nat
deriving DecidableEq, Repr

/-- BoardUtils.serialize: each ship contributes three 8-bit fields (x, y, z),
ships concatenated in order, ship 0 in the low bits.  The source bitifies
coordinates with toBits(8); the mod 256 mirrors that width on any input. -/
def serializeBoard (ships : List Ship) : Nat :=
  ships.foldr
    (fun sh acc => sh.x % 256 + 256 * (sh.y % 256) + 65536 * (sh.z % 256) + 16777216 * acc) 0

/-- BoardUtils.deserialize: split a 120-bit field into five ships of three
8-bit coordinates.  toBits(120) fails on anything not below 2 ^ 120. -/
def deserializeBoard (b : Nat) : Option (List Ship) :=
  if b < 2 ^ 120 then
    some ((List.range 5).map (fun i =>
      ⟨bitSlice b (24 * i) 8, bitSlice b (24 * i + 8) 8, bitSlice b (24 * i + 16) 8⟩))
  else none

/-- The flat coordinate list board.flat() that BoardUtils.hash feeds to Poseidon. -/
def flattenShips (ships : List Ship) : List Nat :=
  ships.foldr (fun sh acc => sh.x :: sh.y :: sh.z :: acc) []

/-- BoardUtils.hash: Poseidon hash of the flattened board. -/
def hashShips (hash : List Nat → Nat) (ships : List Ship) : Nat :=
  hash (flattenShips ships)

/-- BoardUtils.hashSerialized: deserialize then hash. -/
def hashSerialized (hash : List Nat → Nat) (b : Nat) : Option Nat :=
  (deserializeBoard b).map (hashShips hash)

/-- BoardUtils.generatePlayerId: hash of the board hash, the two field
elements of the player address, and the salt. -/
def generatePlayerId (hash : List Nat → Nat) (b : Nat) (sender : Nat × Nat) (salt : Nat) :
    Option Nat :=
  (hashSerialized hash b).map (fun bh => hash [bh, sender.1, sender.2, salt])

/-- The fixed ship lengths of the five-ship fleet. -/
def shipLengths : List Nat := [5, 4, 3, 3, 2]

/-- BoardCircuit.validateShipInRange, range part: horizontal ships need
x + length - 1 < 10 and y < 10, vertical ships the transpose. -/
def shipInRange (ship : Ship) (len : Nat) : Bool :=
  if ship.z = 1 then decide (ship.x < 10) && decide (ship.y + (len - 1) < 10)
  else decide (ship.x + (len - 1) < 10) && decide (ship.y < 10)

/-- The ways BoardCircuit.validateBoard can reject a serialized board, each
carrying the index of the offending ship. -/
inductive BoardFailure where
  | notDeserializable : BoardFailure
  | badOrientation : Nat → BoardFailure
  | outOfRange : Nat → BoardFailure
  | collision : Nat → BoardFailure
deriving DecidableEq, Repr

/-- The occupied cells of a ship: base x + 10y, stepping by 1 when horizontal
and by 10 when vertical, one cell per unit of length (BoardCircuit.placeShip). -/
def shipCells (ship : Ship) (len : Nat) : List Nat :=
  (List.range len).map (fun i => ship.x + 10 * ship.y + i * (if ship.z = 1 then 10 else 1))

/-- BoardCircuit.placeShip, collision part: claim each cell in order, failing
when a cell is already present in the accumulated board map. -/
def placeCells : List Nat → List Nat → Option (List Nat)
  | [], boardMap => some boardMap
  | c :: rest, boardMap =>
    if c ∈ boardMap then none else placeCells rest (boardMap ++ [c])

/-- BoardCircuit.validateShipsLocation loop: for each ship first the
orientation check (z at most 1), then the range check, then collision
placement, reporting the first failing ship index. -/
def validateShips : Nat → List (Ship × Nat) → List Nat → Except BoardFailure (List Nat)
  | _, [], boardMap => .ok boardMap
  | i, (ship, len) :: rest, boardMap =>
    if 2 ≤ ship.z then .error (.badOrientation i)
    else if shipInRange ship len = false then .error (.outOfRange i)
    else
      match placeCells (shipCells ship len) boardMap with
      | none => .error (.collision i)
      | some m => validateShips (i + 1) rest m

/-- BoardCircuit.validateShipsLocation on the five-ship fleet. -/
def validateShipsLocation (ships : List Ship) : Except BoardFailure (List Nat) :=
  validateShips 0 (ships.zip shipLengths) []

/-- BoardCircuit.validateBoard: deserialize, validate all ship locations, and
return the Poseidon hash of the flattened board. -/
def validateBoard (hash : List Nat → Nat) (b : Nat) : Except BoardFailure Nat :=
  match deserializeBoard b with
  | none => .error .notDeserializable
  | some ships =>
    match validateShipsLocation ships with
    | .error e => .error e
    | .ok _ => .ok (hashShips hash ships)

/-- AttackUtils.serializeTarget: 4 bits of x in the low nibble, 4 bits of y
in the high nibble. -/
def serializeTarget (x y : Nat) : Nat := x % 16 + 16 * (y % 16)

/-- AttackUtils.deserializeTarget: split an 8-bit field into two nibbles;
toBits(8) fails on anything not below 256. -/
def deserializeTarget (t : Nat) : Option (Nat × Nat) :=
  if t < 256 then some (t % 16, t / 16 % 16) else none

/-- AttackUtils.validateTarget range assertions: both coordinates below 10. -/
def targetInRange (xy : Nat × Nat) : Bool :=
  decide (xy.1 < 10) && decide (xy.2 < 10)

/-- AttackUtils.serializeHitCountHistory: two 5-bit counters; toBits(5)
fails when a counter does not fit 5 bits. -/
def serializeHitCountHistory (c1 c2 : Nat) : Option Nat :=
  if c1 < 32 ∧ c2 < 32 then some (c1 + 32 * c2) else none

/-- One player's hit-target log as a base-128 little-endian number, entry 0
in the low bits; toBits(7) fails when an entry does not fit 7 bits. -/
def ser7 : List Nat → Option Nat
  | [] => some 0
  | a :: rest => if a < 128 then (ser7 rest).map (fun acc => a + 128 * acc) else none

/-- AttackUtils.serializeHitTargetHistory: both 17-entry logs, 7 bits per
entry, player 1 in the low 119 bits. -/
def serializeHitTargetHistory (l1 l2 : List Nat) : Option Nat :=
  if l1.length = 17 ∧ l2.length = 17 then
    (ser7 l1).bind (fun v1 => (ser7 l2).map (fun v2 => v1 + 2 ^ 119 * v2))
  else none

/-- AttackUtils.deserializeHitTargetHistory: seventeen 7-bit slices. -/
def deser17 (t : Nat) : List Nat := (List.range 17).map (fun i => bitSlice t (7 * i) 7)

/-- AttackUtils.serializeHitHistory: 10 bits of counters then 238 bits of
hit-target logs. -/
def serializeHitHistory (c t : Nat) : Option Nat :=
  if c < 2 ^ 10 ∧ t < 2 ^ 238 then some (c + 2 ^ 10 * t) else none

/-- AttackUtils.deserializeHitHistory: counters in bits 0-9, player 1 log in
bits 10-128, player 2 log in bits 129-247; toBits(248) bounds the input. -/
def deserializeHitHistory (h : Nat) : Option ((Nat × Nat) × (List Nat × List Nat)) :=
  if h < 2 ^ 248 then
    some ((bitSlice h 0 5, bitSlice h 5 5),
          (deser17 (bitSlice h 10 119), deser17 (bitSlice h 129 119)))
  else none

/-- AttackUtils.encodeHitTarget: x + 10y + 1, the +1 distinguishing a real
entry from the zero default of an unused slot. -/
def encodeHitTarget (xy : Nat × Nat) : Nat := xy.1 + xy.2 * 10 + 1

/-- AttackUtils.updateHitTargetHistory: write the encoded target (or 0 on a
miss) at the given index of the 17-entry log; an index outside the log makes
the typed Provable.Array witness fail. -/
def updateHitTargetHistory (target : Nat × Nat) (isHit : Bool) (playerHitTargets : List Nat)
    (index : Nat) : Option (List Nat) :=
  if index < 17 then
    some (playerHitTargets.set index (if isHit then encodeHitTarget target else 0))
  else none

/-- AttackUtils.validateHitTargetUniqueness: true when the encoded target
already occurs in the player's hit-target log. -/
def validateHitTargetUniqueness (target : Nat × Nat) (hitTargetHistory : List Nat) : Bool :=
  decide (encodeHitTarget target ∈ hitTargetHistory)

/-- AttackCircuit.scanShip: or-fold of the per-cell coordinate comparisons,
separately for the x and the y coordinate, picked by orientation. -/
def scanShip (target : Nat × Nat) (ship : Ship) (len : Nat) : Bool :=
  if ship.z = 1 then
    ((List.range len).any (fun _ => ship.x == target.1)) &&
    ((List.range len).any (fun i => ship.y + i == target.2))
  else
    ((List.range len).any (fun i => ship.x + i == target.1)) &&
    ((List.range len).any (fun _ => ship.y == target.2))

/-- AttackCircuit.attack: assert the shot is on the 10 by 10 grid, then scan
all five ships for a hit. -/
def attackCircuit (ships : List Ship) (shot : Nat × Nat) : Option Bool :=
  if shot.1 < 10 ∧ shot.2 < 10 then
    some ((ships.zip shipLengths).any (fun p => scanShip shot p.1 p.2))
  else none

/-- A MerkleWitness(8) of o1js: seven levels, bottom first, each level the
isLeft flag of the running node and the sibling hash. -/
def MWitness : Type := List (Bool × Nat)

/-- MerkleWitness.calculateRoot: fold the sibling path from the leaf up. -/
def calcRoot (hash : List Nat → Nat) : List (Bool × Nat) → Nat → Nat
  | [], h => h
  | (b, s) :: rest, h => calcRoot hash rest (if b then hash [h, s] else hash [s, h])

/-- MerkleWitness.calculateIndex: the leaf index encoded by the isLeft flags,
bottom bit first, isLeft meaning bit 0. -/
def calcIndex : List (Bool × Nat) → Nat
  | [] => 0
  | (b, _) :: rest => (if b then 0 else 1) + 2 * calcIndex rest

/-- Root of a depth-d perfect Merkle tree over the leaf assignment f,
collapsing sibling pairs bottom-up. -/
def treeRoot (hash : List Nat → Nat) : Nat → (Nat → Nat) → Nat
  | 0, f => f 0
  | d + 1, f => treeRoot hash d (fun j => hash [f (2 * j), f (2 * j + 1)])

/-- The canonical root of the 128-leaf all-zero tree (EMPTY_TREE8_ROOT). -/
def emptyRoot (hash : List Nat → Nat) : Nat := treeRoot hash 7 (fun _ => 0)

/-- The eight on-chain field slots of the Battleships contract. -/
structure GameState where
  player1Id : Nat
  player2Id : Nat
  turns : Nat
  target : Nat
  targetRoot : Nat
  hitResult : Bool
  hitRoot : Nat
  serializedHitHistory : Nat
deriving DecidableEq, Repr

/-- initGame: zero player ids, zero turn counter, empty-tree roots, zero hit
history. -/
def initGame (hash : List Nat → Nat) : GameState :=
  ⟨0, 0, 0, 0, emptyRoot hash, false, emptyRoot hash, 0⟩

/-- Modelled from the spec: the salted hostGame method of the
BattleshipsZkApp contract.  The contract file itself is absent from src
(src/Battleships.ts holds earlier snapshots without the salt); the method
surface hostGame(board, salt) follows the spec and Battleships.test.ts, the
per-step logic the src snapshot: require an unclaimed host slot, validate the
board, store hash(boardHash, sender address, salt) as player1Id. -/
def hostStep (hash : List Nat → Nat) (s : GameState) (b salt : Nat) (sender : Nat × Nat) :
    Option GameState :=
  if s.player1Id = 0 then
    (validateBoard hash b).toOption.bind fun bh =>
      some { s with player1Id := hash [bh, sender.1, sender.2, salt] }
  else none

/-- Modelled from the spec: the salted joinGame method, symmetric to
hostGame against the joiner slot (no check that a host exists, as in the src
snapshot, whose TODO leaves that check absent). -/
def joinStep (hash : List Nat → Nat) (s : GameState) (b salt : Nat) (sender : Nat × Nat) :
    Option GameState :=
  if s.player2Id = 0 then
    (validateBoard hash b).toOption.bind fun bh =>
      some { s with player2Id := hash [bh, sender.1, sender.2, salt] }
  else none

/-- Modelled from the spec: the salted firstTurn method.  Requires turn 0 and
the host identity rederived from board, sender and salt; validates the target,
checks the target witness against the stored root over an empty leaf at index
equal to the turn counter, stores the target and new root, increments. -/
def firstTurnStep (hash : List Nat → Nat) (s : GameState) (t b salt : Nat)
    (sender : Nat × Nat) (tw : List (Bool × Nat)) : Option GameState :=
  if s.turns = 0 then
    (generatePlayerId hash b sender salt).bind fun pid =>
    if pid = s.player1Id then
      (deserializeTarget t).bind fun xy =>
      if targetInRange xy then
        if tw.length = 7 ∧ calcIndex tw = s.turns ∧ calcRoot hash tw 0 = s.targetRoot then
          some { s with target := t, targetRoot := calcRoot hash tw t, turns := s.turns + 1 }
        else none
      else none
    else none
  else none

/-- Modelled from the spec: the salted attack method, logic as in the src
snapshot of Battleships.ts.  Guards in source order: positive turn counter,
deserializable hit history, game not over, deserializable board, caller
identity matching the turn parity, witness indices tied to the turn counter,
both witnesses recomputing the stored roots over empty leaves; then the
pending shot is resolved on the caller's board, the hit result and roots are
updated, both parity branches of the hit-history update are evaluated (a
Provable.if evaluates both sides), the new target must not be nullified for
the firing player, and the validated new target is stored. -/
def attackStep (hash : List Nat → Nat) (s : GameState) (t b salt : Nat) (sender : Nat × Nat)
    (tw hw : List (Bool × Nat)) : Option GameState :=
  if 0 < s.turns then
    (deserializeHitHistory s.serializedHitHistory).bind fun hh =>
    if hh.1.2 = 17 ∨ hh.1.1 = 17 then none
    else
      (deserializeBoard b).bind fun ships =>
      if hash [hashShips hash ships, sender.1, sender.2, salt]
          = (if s.turns % 2 = 0 then s.player1Id else s.player2Id) then
        if tw.length = 7 ∧ hw.length = 7 ∧ calcIndex tw = s.turns
            ∧ calcIndex hw = s.turns - 1
            ∧ calcRoot hash tw 0 = s.targetRoot ∧ calcRoot hash hw 0 = s.hitRoot then
          (deserializeTarget s.target).bind fun pxy =>
          (attackCircuit ships pxy).bind fun hit =>
          (serializeHitCountHistory hh.1.1 (hh.1.2 + (if hit then 1 else 0))).bind fun cntEven =>
          (serializeHitCountHistory (hh.1.1 + (if hit then 1 else 0)) hh.1.2).bind fun cntOdd =>
          (deserializeTarget t).bind fun txy =>
          if (if s.turns % 2 = 0 then validateHitTargetUniqueness txy hh.2.1
              else validateHitTargetUniqueness txy hh.2.2) then none
          else
            (updateHitTargetHistory pxy hit hh.2.2 hh.1.2).bind fun u2 =>
            (updateHitTargetHistory pxy hit hh.2.1 hh.1.1).bind fun u1 =>
            (serializeHitTargetHistory hh.2.1 u2).bind fun tgtEven =>
            (serializeHitTargetHistory u1 hh.2.2).bind fun tgtOdd =>
            (serializeHitHistory
                (if s.turns % 2 = 0 then cntEven else cntOdd)
                (if s.turns % 2 = 0 then tgtEven else tgtOdd)).bind fun newHist =>
            if targetInRange txy then
              some { s with
                hitResult := hit,
                hitRoot := calcRoot hash hw (if hit then 1 else 0),
                serializedHitHistory := newHist,
                target := t,
                targetRoot := calcRoot hash tw t,
                turns := s.turns + 1 }
            else none
        else none
      else none
  else none

/-- One transaction against the contract: a method with its arguments. -/
inductive Method where
  | hostGame (b salt : Nat) (sender : Nat × Nat)
  | joinGame (b salt : Nat) (sender : Nat × Nat)
  | firstTurn (t b salt : Nat) (sender : Nat × Nat) (tw : List (Bool × Nat))
  | attack (t b salt : Nat) (sender : Nat × Nat) (tw hw : List (Bool × Nat))

/-- Dispatch one transaction. -/
def step (hash : List Nat → Nat) (s : GameState) : Method → Option GameState
  | .hostGame b salt sender => hostStep hash s b salt sender
  | .joinGame b salt sender => joinStep hash s b salt sender
  | .firstTurn t b salt sender tw => firstTurnStep hash s t b salt sender tw
  | .attack t b salt sender tw hw => attackStep hash s t b salt sender tw hw

/-- Run a sequence of transactions; the whole run fails when any call is
rejected (a rejected transaction never changes state). -/
def run (hash : List Nat → Nat) : GameState → List Method → Option GameState
  | s, [] => some s
  | s, m :: rest =>
    match step hash s m with
    | none => none
    | some s2 => run hash s2 rest

/-- States reachable from the initialized contract by accepted calls. -/
def Reachable (hash : List Nat → Nat) (s : GameState) : Prop :=
  ∃ ms, run hash (initGame hash) ms = some s

/-- The target-tree leaf written by an accepted call: firstTurn and attack
store the new serialized target at leaf index equal to the pre-call turn
counter. -/
def targetUpdOf (s : GameState) : Method → List (Nat × Nat)
  | .firstTurn t _ _ _ _ => [(s.turns, t)]
  | .attack t _ _ _ _ _ => [(s.turns, t)]
  | _ => []

/-- The hit-tree leaf written by an accepted call: attack stores the hit
result at leaf index equal to the pre-call turn counter minus one. -/
def hitUpdOf (s s2 : GameState) : Method → List (Nat × Nat)
  | .attack _ _ _ _ _ _ => [(s.turns - 1, if s2.hitResult then 1 else 0)]
  | _ => []

/-- Run a sequence of transactions while collecting the target-tree and
hit-tree leaf writes of every accepted call. -/
def runC (hash : List Nat → Nat) :
    GameState → List Method → List (Nat × Nat) → List (Nat × Nat) →
    Option (GameState × List (Nat × Nat) × List (Nat × Nat))
  | s, [], tU, hU => some (s, tU, hU)
  | s, m :: rest, tU, hU =>
    match step hash s m with
    | none => none
    | some s2 => runC hash s2 rest (tU ++ targetUpdOf s m) (hU ++ hitUpdOf s s2 m)

/-- Replay a list of leaf writes over a leaf assignment. -/
def applyUpds : (Nat → Nat) → List (Nat × Nat) → (Nat → Nat)
  | f, [] => f
  | f, u :: rest => applyUpds (Function.update f u.1 u.2) rest

/-- Pairwise collision freeness of the hash on two-element lists: the
standard assumption under which a Merkle witness check is sound. -/
def PairColl (hash : List Nat → Nat) : Prop :=
  ∀ a b c d : Nat, hash [a, b] = hash [c, d] → a = c ∧ b = d

/-- A concrete injective list encoding, used as the hash instance of the
witness theorems. -/
def encodeList : List Nat → Nat
  | [] => 0
  | a :: rest => Nat.pair a (encodeList rest) + 1

/-- The all-zero subtree hash at each level of a Merkle tree. -/
def zeroHashes (hash : List Nat → Nat) : Nat → Nat
  | 0 => 0
  | k + 1 => hash [zeroHashes hash k, zeroHashes hash k]

/-- The host board of the repository test suite. -/
def hostShips : List Ship := [⟨0, 0, 0⟩, ⟨0, 1, 0⟩, ⟨0, 2, 0⟩, ⟨0, 3, 0⟩, ⟨0, 4, 0⟩]

/-- The joiner board of the repository test suite. -/
def joinShips : List Ship := [⟨9, 0, 1⟩, ⟨9, 5, 1⟩, ⟨6, 9, 0⟩, ⟨6, 8, 0⟩, ⟨7, 7, 0⟩]

/-- Serialized host board. -/
def hostSer : Nat := serializeBoard hostShips

/-- Serialized joiner board. -/
def joinSer : Nat := serializeBoard joinShips

/-- Witness for target leaf 0 in the empty target tree. -/
def twA : List (Bool × Nat) := (List.range 7).map (fun k => (true, zeroHashes encodeList k))

/-- Witness for target leaf 1 once leaf 0 holds the serialized target 9. -/
def twB : List (Bool × Nat) :=
  (false, 9) :: (List.range 6).map (fun k => (true, zeroHashes encodeList (k + 1)))

/-- Witness for target leaf 2 once leaves 0 and 1 hold 9. -/
def twC : List (Bool × Nat) :=
  (true, 0) :: (false, encodeList [9, 9]) ::
    (List.range 5).map (fun k => (true, zeroHashes encodeList (k + 2)))

/-- Witness for target leaf 3 once leaves 0, 1, 2 hold 9, 9, 85. -/
def twD : List (Bool × Nat) :=
  (false, 85) :: (false, encodeList [9, 9]) ::
    (List.range 5).map (fun k => (true, zeroHashes encodeList (k + 2)))

/-- Witness for hit leaf 0 in the empty hit tree. -/
def hwA : List (Bool × Nat) := twA

/-- Witness for hit leaf 1 once leaf 0 holds 1. -/
def hwB : List (Bool × Nat) :=
  (false, 1) :: (List.range 6).map (fun k => (true, zeroHashes encodeList (k + 1)))

/-- Witness for hit leaf 2 once leaves 0 and 1 hold 1 and 0. -/
def hwC : List (Bool × Nat) :=
  (true, 0) :: (false, encodeList [1, 0]) ::
    (List.range 5).map (fun k => (true, zeroHashes encodeList (k + 2)))

/-- A concrete game: the host registers, the joiner registers, the host opens
fire on (9, 0), the joiner reports the hit and fires (9, 0) back, the host
reports a miss and fires (5, 5), the joiner reports a miss and fires the
previously missed (9, 0) again. -/
def mv1 : Method := .hostGame hostSer 5 (1, 2)

/-- Second call of the concrete game: the joiner registers. -/
def mv2 : Method := .joinGame joinSer 6 (3, 4)

/-- Third call: the host opens fire on (9, 0), serialized as 9. -/
def mv3 : Method := .firstTurn 9 hostSer 5 (1, 2) twA

/-- Fourth call: the joiner reports the hit on (9, 0) and fires (9, 0). -/
def mv4 : Method := .attack 9 joinSer 6 (3, 4) twB hwA

/-- Fifth call: the host reports a miss and fires (5, 5), serialized as 85. -/
def mv5 : Method := .attack 85 hostSer 5 (1, 2) twC hwB

/-- Sixth call: the joiner reports a miss and reuses the missed (9, 0). -/
def mv6 : Method := .attack 9 joinSer 6 (3, 4) twD hwC

/-- The first five calls of the concrete game. -/
def gameTrace5 : List Method := [mv1, mv2, mv3, mv4, mv5]

/-- The whole concrete game. -/
def gameTrace : List Method := [mv1, mv2, mv3, mv4, mv5, mv6]

/-- The state after the first call of the concrete game. -/
def st1 : GameState := (run encodeList (initGame encodeList) [mv1]).getD (initGame encodeList)

/-- The state after two calls of the concrete game. -/
def st2 : GameState :=
  (run encodeList (initGame encodeList) [mv1, mv2]).getD (initGame encodeList)

/-- The state after three calls of the concrete game. -/
def st3 : GameState :=
  (run encodeList (initGame encodeList) [mv1, mv2, mv3]).getD (initGame encodeList)

/-- The state after four calls of the concrete game. -/
def st4 : GameState :=
  (run encodeList (initGame encodeList) [mv1, mv2, mv3, mv4]).getD (initGame encodeList)

/-- The state after five calls of the concrete game. -/
def st5 : GameState :=
  (run encodeList (initGame encodeList) gameTrace5).getD (initGame encodeList)

/-- The state after the whole concrete game. -/
def st6 : GameState :=
  (run encodeList (initGame encodeList) gameTrace).getD (initGame encodeList)

/-- The state produced by a joinGame call on the freshly initialized
contract, before any host has registered. -/
def cJoinState : GameState :=
  (joinStep encodeList (initGame encodeList) joinSer 6 (3, 4)).getD (initGame encodeList)

/-- A state whose player-1 hit counter is already 17 (game over). -/
def gOverState : GameState := { st4 with serializedHitHistory := 17 }

/-- The collected leaf writes of the whole concrete game. -/
def gameRunC : GameState × List (Nat × Nat) × List (Nat × Nat) :=
  (runC encodeList (initGame encodeList) gameTrace [] []).getD (initGame encodeList, [], [])

/-! Round-trip lemmas for the bit-packed hit history. -/

theorem bitSlice_lt (v lo width : Nat) : bitSlice v lo width < 2 ^ width :=
  Nat.mod_lt _ (Nat.pos_pow_of_pos _ (by omega))

theorem ser7_lt : ∀ (l : List Nat) (v : Nat), ser7 l = some v → v < 128 ^ l.length := by
  intro l
  induction l with
  | nil =>
    intro v h
    simp only [ser7, Option.some.injEq] at h
    simp [← h]
  | cons a rest ih =>
    intro v h
    simp only [ser7] at h
    by_cases ha : a < 128
    · rw [if_pos ha, Option.map_eq_some'] at h
      obtain ⟨acc, hacc, hv⟩ := h
      have hlt := ih acc hacc
      simp only [List.length_cons, pow_succ]
      omega
    · rw [if_neg ha] at h
      exact absurd h (by simp)

theorem ser7_roundtrip : ∀ (l : List Nat) (v : Nat), ser7 l = some v →
    (List.range l.length).map (fun i => bitSlice v (7 * i) 7) = l := by
  intro l
  induction l with
  | nil => intro v h; simp
  | cons a rest ih =>
    intro v h
    simp only [ser7] at h
    by_cases ha : a < 128
    · rw [if_pos ha, Option.map_eq_some'] at h
      obtain ⟨acc, hacc, hv⟩ := h
      have hdiv : v / 2 ^ 7 = acc := by omega
      have hmod : bitSlice v 0 7 = a := by
        simp only [bitSlice, pow_zero, Nat.div_one]
        omega
      simp only [List.length_cons, List.range_succ_eq_map, List.map_cons, List.map_map,
        Nat.mul_zero, hmod]
      refine congrArg (a :: ·) ?_
      have hcongr : ∀ i ∈ List.range rest.length,
          ((fun i => bitSlice v (7 * i) 7) ∘ Nat.succ) i = (fun i => bitSlice acc (7 * i) 7) i := by
        intro i _
        simp only [Function.comp, bitSlice]
        rw [show 7 * Nat.succ i = 7 + 7 * i by omega, pow_add,
          ← Nat.div_div_eq_div_mul, hdiv]
      rw [List.map_congr_left hcongr]
      exact ih acc hacc
    · rw [if_neg ha] at h
      exact absurd h (by simp)

theorem deser17_length (t : Nat) : (deser17 t).length = 17 := by
  simp [deser17]

theorem deser17_lt (t : Nat) : ∀ a ∈ deser17 t, a < 128 := by
  intro a ha
  simp only [deser17, List.mem_map] at ha
  obtain ⟨i, _, rfl⟩ := ha
  exact bitSlice_lt t _ 7

/-- Writing the packed hit history and reading it back returns the original
counters and logs. -/
theorem hitHistory_roundtrip {a b cnt : Nat} {l1 l2 : List Nat} {tgt h : Nat}
    (hc : serializeHitCountHistory a b = some cnt)
    (ht : serializeHitTargetHistory l1 l2 = some tgt)
    (hh : serializeHitHistory cnt tgt = some h) :
    deserializeHitHistory h = some ((a, b), (l1, l2)) := by
  simp only [serializeHitCountHistory, ite_eq_iff] at hc
  rcases hc with ⟨⟨ha, hb⟩, hcnt⟩ | ⟨_, hcontra⟩
  · simp only [Option.some.injEq] at hcnt
    simp only [serializeHitTargetHistory, ite_eq_iff] at ht
    rcases ht with ⟨⟨hl1, hl2⟩, htgt⟩ | ⟨_, hcontra2⟩
    · rw [Option.bind_eq_some] at htgt
      obtain ⟨v1, hv1, htgt⟩ := htgt
      rw [Option.map_eq_some'] at htgt
      obtain ⟨v2, hv2, htgt⟩ := htgt
      have hv1lt : v1 < 2 ^ 119 := by
        have := ser7_lt l1 v1 hv1
        rw [hl1] at this
        omega
      have hv2lt : v2 < 2 ^ 119 := by
        have := ser7_lt l2 v2 hv2
        rw [hl2] at this
        omega
      simp only [serializeHitHistory, ite_eq_iff] at hh
      rcases hh with ⟨⟨hcl, htl⟩, hhv⟩ | ⟨_, hcontra3⟩
      · simp only [Option.some.injEq] at hhv
        have hs1 : bitSlice h 0 5 = a := by
          simp only [bitSlice, pow_zero, Nat.div_one]
          omega
        have hs2 : bitSlice h 5 5 = b := by
          simp only [bitSlice]
          omega
        have hs3 : bitSlice h 10 119 = v1 := by
          simp only [bitSlice]
          omega
        have hs4 : bitSlice h 129 119 = v2 := by
          simp only [bitSlice]
          omega
        have hd1 : deser17 v1 = l1 := by
          have := ser7_roundtrip l1 v1 hv1
          rw [hl1] at this
          exact this
        have hd2 : deser17 v2 = l2 := by
          have := ser7_roundtrip l2 v2 hv2
          rw [hl2] at this
          exact this
        have hlt : h < 2 ^ 248 := by omega
        simp only [deserializeHitHistory, if_pos hlt, hs1, hs2, hs3, hs4, hd1, hd2]
      · exact absurd hcontra3 (by simp)
    · exact absurd hcontra2 (by simp)
  · exact absurd hcontra (by simp)

/-! Inversion lemmas: everything an accepted call guarantees. -/

theorem validateBoard_ok_inv {hash : List Nat → Nat} {b bh : Nat}
    (h : validateBoard hash b = .ok bh) :
    ∃ ships boardMap, deserializeBoard b = some ships ∧
      validateShipsLocation ships = .ok boardMap ∧ bh = hashShips hash ships := by
  unfold validateBoard at h
  split at h
  · exact absurd h (by simp)
  · next ships hd =>
    split at h
    · exact absurd h (by simp)
    · next m hv =>
      simp only [Except.ok.injEq] at h
      exact ⟨ships, m, hd, hv, h.symm⟩

theorem hostStep_inv {hash : List Nat → Nat} {s : GameState} {b salt : Nat}
    {sender : Nat × Nat} {s2 : GameState}
    (h : hostStep hash s b salt sender = some s2) :
    s.player1Id = 0 ∧ ∃ bh, validateBoard hash b = .ok bh ∧
      s2 = { s with player1Id := hash [bh, sender.1, sender.2, salt] } := by
  simp only [hostStep, Option.ite_none_right_eq_some, Option.bind_eq_some,
    Option.some.injEq] at h
  obtain ⟨h0, bh, hbh, hs2⟩ := h
  rcases hv : validateBoard hash b with e | v
  · rw [hv] at hbh
    exact absurd hbh (by simp [Except.toOption])
  · rw [hv] at hbh
    simp only [Except.toOption, Option.some.injEq] at hbh
    exact ⟨h0, v, rfl, by rw [← hs2, hbh]⟩

theorem joinStep_inv {hash : List Nat → Nat} {s : GameState} {b salt : Nat}
    {sender : Nat × Nat} {s2 : GameState}
    (h : joinStep hash s b salt sender = some s2) :
    s.player2Id = 0 ∧ ∃ bh, validateBoard hash b = .ok bh ∧
      s2 = { s with player2Id := hash [bh, sender.1, sender.2, salt] } := by
  simp only [joinStep, Option.ite_none_right_eq_some, Option.bind_eq_some,
    Option.some.injEq] at h
  obtain ⟨h0, bh, hbh, hs2⟩ := h
  rcases hv : validateBoard hash b with e | v
  · rw [hv] at hbh
    exact absurd hbh (by simp [Except.toOption])
  · rw [hv] at hbh
    simp only [Except.toOption, Option.some.injEq] at hbh
    exact ⟨h0, v, rfl, by rw [← hs2, hbh]⟩

theorem firstTurnStep_inv {hash : List Nat → Nat} {s : GameState} {t b salt : Nat}
    {sender : Nat × Nat} {tw : List (Bool × Nat)} {s2 : GameState}
    (h : firstTurnStep hash s t b salt sender tw = some s2) :
    s.turns = 0 ∧ generatePlayerId hash b sender salt = some s.player1Id ∧
    (∃ xy, deserializeTarget t = some xy ∧ targetInRange xy = true) ∧
    tw.length = 7 ∧ calcIndex tw = s.turns ∧ calcRoot hash tw 0 = s.targetRoot ∧
    s2 = { s with target := t, targetRoot := calcRoot hash tw t, turns := s.turns + 1 } := by
  simp only [firstTurnStep, Option.ite_none_right_eq_some, Option.bind_eq_some,
    Option.some.injEq] at h
  obtain ⟨h0, pid, hpid, hid, xy, hxy, hrange, ⟨hlen, hidx, hroot⟩, hs2⟩ := h
  exact ⟨h0, by rw [hpid, hid], ⟨xy, hxy, hrange⟩, hlen, hidx, hroot, hs2.symm⟩

theorem attackStep_inv {hash : List Nat → Nat} {s : GameState} {t b salt : Nat}
    {sender : Nat × Nat} {tw hw : List (Bool × Nat)} {s2 : GameState}
    (h : attackStep hash s t b salt sender tw hw = some s2) :
    ∃ c1 c2 t1 t2 ships pxy hit txy cntEven cntOdd u2 u1 tgtEven tgtOdd newHist,
      0 < s.turns ∧
      deserializeHitHistory s.serializedHitHistory = some ((c1, c2), (t1, t2)) ∧
      ¬(c2 = 17 ∨ c1 = 17) ∧
      deserializeBoard b = some ships ∧
      hash [hashShips hash ships, sender.1, sender.2, salt]
        = (if s.turns % 2 = 0 then s.player1Id else s.player2Id) ∧
      tw.length = 7 ∧ hw.length = 7 ∧
      calcIndex tw = s.turns ∧ calcIndex hw = s.turns - 1 ∧
      calcRoot hash tw 0 = s.targetRoot ∧ calcRoot hash hw 0 = s.hitRoot ∧
      deserializeTarget s.target = some pxy ∧
      attackCircuit ships pxy = some hit ∧
      serializeHitCountHistory c1 (c2 + (if hit then 1 else 0)) = some cntEven ∧
      serializeHitCountHistory (c1 + (if hit then 1 else 0)) c2 = some cntOdd ∧
      deserializeTarget t = some txy ∧
      (if s.turns % 2 = 0 then validateHitTargetUniqueness txy t1
        else validateHitTargetUniqueness txy t2) = false ∧
      updateHitTargetHistory pxy hit t2 c2 = some u2 ∧
      updateHitTargetHistory pxy hit t1 c1 = some u1 ∧
      serializeHitTargetHistory t1 u2 = some tgtEven ∧
      serializeHitTargetHistory u1 t2 = some tgtOdd ∧
      serializeHitHistory (if s.turns % 2 = 0 then cntEven else cntOdd)
        (if s.turns % 2 = 0 then tgtEven else tgtOdd) = some newHist ∧
      targetInRange txy = true ∧
      s2 = { s with hitResult := hit,
                    hitRoot := calcRoot hash hw (if hit then 1 else 0),
                    serializedHitHistory := newHist,
                    target := t,
                    targetRoot := calcRoot hash tw t,
                    turns := s.turns + 1 } := by
  simp only [attackStep, Option.bind_eq_some, Option.ite_none_right_eq_some,
    Option.ite_none_left_eq_some, Option.some.injEq] at h
  obtain ⟨hpos, ⟨⟨c1, c2⟩, ⟨t1, t2⟩⟩, hdes, hnot17, ships, hships, hid, hwits, pxy, hpxy,
    hit, hhit, cntEven, hcntE, cntOdd, hcntO, txy, htxy, hnull, u2, hu2, u1, hu1,
    tgtEven, htgtE, tgtOdd, htgtO, newHist, hnew, hrange, hs2⟩ := h
  exact ⟨c1, c2, t1, t2, ships, pxy, hit, txy, cntEven, cntOdd, u2, u1, tgtEven, tgtOdd,
    newHist, hpos, hdes, hnot17, hships, hid, hwits.1, hwits.2.1, hwits.2.2.1,
    hwits.2.2.2.1, hwits.2.2.2.2.1, hwits.2.2.2.2.2, hpxy, hhit, hcntE, hcntO, htxy,
    by simpa using hnull, hu2, hu1, htgtE, htgtO, hnew, hrange, hs2.symm⟩

/-! Attack resolver: coordinate scanning matches cell membership on valid ships. -/

theorem scanShip_iff_mem {shot : Nat × Nat} {ship : Ship} {len : Nat}
    (hlen : 0 < len) (hz : ship.z ≤ 1) (hok : shipInRange ship len = true)
    (hx : shot.1 < 10) (hy : shot.2 < 10) :
    (scanShip shot ship len = true ↔ shot.1 + 10 * shot.2 ∈ shipCells ship len) := by
  rcases Nat.lt_or_ge ship.z 1 with hz0 | hz1
  · have hz0 : ship.z = 0 := by omega
    simp only [shipInRange, hz0] at hok
    norm_num at hok
    simp only [scanShip, shipCells, hz0]
    norm_num [List.any_eq_true, List.mem_range, List.mem_map]
    constructor
    · rintro ⟨⟨i, hi, hxi⟩, ⟨j, hj⟩, hyj⟩
      exact ⟨i, hi, by omega⟩
    · rintro ⟨i, hi, heq⟩
      exact ⟨⟨i, hi, by omega⟩, ⟨0, hlen⟩, by omega⟩
  · have hz1 : ship.z = 1 := by omega
    simp only [shipInRange, hz1] at hok
    norm_num at hok
    simp only [scanShip, shipCells, hz1]
    norm_num [List.any_eq_true, List.mem_range, List.mem_map]
    constructor
    · rintro ⟨⟨⟨j, hj⟩, hxi⟩, ⟨i, hi, hyi⟩⟩
      exact ⟨i, hi, by omega⟩
    · rintro ⟨i, hi, heq⟩
      exact ⟨⟨⟨0, hlen⟩, by omega⟩, ⟨i, hi, by omega⟩⟩

/-- C9 counterexample: the valid target (9, 9) encodes to 100, outside the
claimed range 1..91. -/
theorem c9_range_counterexample :
    (9 : Nat) < 10 ∧ (9 : Nat) < 10 ∧ encodeHitTarget (9, 9) = 100 ∧
    ¬(encodeHitTarget (9, 9) ≤ 91) := by
  refine ⟨by norm_num, by norm_num, by decide, by decide⟩

/-- C9 amended: for a valid target, the hit-log encoding is x + 10y + 1,
lies in 1..100, fits 7 bits, and is never the reserved unused-slot value 0. -/
theorem c9_hit_target_encoding (x y : Nat) (hx : x < 10) (hy : y < 10) :
    encodeHitTarget (x, y) = x + 10 * y + 1 ∧ 1 ≤ encodeHitTarget (x, y) ∧
    encodeHitTarget (x, y) ≤ 100 ∧ encodeHitTarget (x, y) < 2 ^ 7 ∧
    encodeHitTarget (x, y) ≠ 0 := by
  simp only [encodeHitTarget]
  omega

/-- C9 witness at the concrete target (3, 4). -/
theorem c9_hit_target_encoding_witness :
    encodeHitTarget (3, 4) = 3 + 10 * 4 + 1 ∧ 1 ≤ encodeHitTarget (3, 4) ∧
    encodeHitTarget (3, 4) ≤ 100 ∧ encodeHitTarget (3, 4) < 2 ^ 7 ∧
    encodeHitTarget (3, 4) ≠ 0 :=
  c9_hit_target_encoding 3 4 (by decide) (by decide)

/-- C7: on a layout whose five ships all pass the range rule, the attack
resolver answers true exactly when the shot lands on an occupied cell of some
ship, and it rejects any out-of-range shot outright. -/
theorem c7_attack_resolver (ships : List Ship) (shot : Nat × Nat)
    (hok : ∀ p ∈ ships.zip shipLengths, p.1.z ≤ 1 ∧ shipInRange p.1 p.2 = true) :
    (shot.1 < 10 → shot.2 < 10 →
      (attackCircuit ships shot = some true ↔
        ∃ p ∈ ships.zip shipLengths, shot.1 + 10 * shot.2 ∈ shipCells p.1 p.2)) ∧
    (10 ≤ shot.1 ∨ 10 ≤ shot.2 → attackCircuit ships shot = none) := by
  have hpos : ∀ p ∈ ships.zip shipLengths, 0 < p.2 := by
    intro p hp
    have hmem := (List.of_mem_zip hp).2
    simp only [shipLengths, List.mem_cons, List.not_mem_nil, or_false] at hmem
    omega
  constructor
  · intro hx hy
    unfold attackCircuit
    rw [if_pos ⟨hx, hy⟩]
    simp only [Option.some.injEq]
    constructor
    · intro h
      obtain ⟨p, hp, hscan⟩ := List.any_eq_true.mp h
      exact ⟨p, hp,
        (scanShip_iff_mem (hpos p hp) (hok p hp).1 (hok p hp).2 hx hy).mp hscan⟩
    · rintro ⟨p, hp, hmem⟩
      exact List.any_eq_true.mpr ⟨p, hp,
        (scanShip_iff_mem (hpos p hp) (hok p hp).1 (hok p hp).2 hx hy).mpr hmem⟩
  · intro hout
    unfold attackCircuit
    rw [if_neg (by omega)]

/-! Board validation: characterization of acceptance and failure order. -/

theorem shipCells_nodup (ship : Ship) (len : Nat) : (shipCells ship len).Nodup := by
  unfold shipCells
  refine List.Nodup.map ?_ (List.nodup_range len)
  intro i j hij
  by_cases hz : ship.z = 1 <;> simp [hz] at hij <;> omega

theorem placeCells_characterization : ∀ (cells boardMap : List Nat),
    placeCells cells boardMap =
      (if cells.Nodup ∧ ∀ c ∈ cells, c ∉ boardMap then some (boardMap ++ cells) else none) := by
  intro cells
  induction cells with
  | nil => intro boardMap; simp [placeCells]
  | cons c rest ih =>
    intro boardMap
    simp only [placeCells, ih (boardMap ++ [c])]
    by_cases hc : c ∈ boardMap
    · rw [if_pos hc]
      rw [if_neg (by intro hcon; exact hcon.2 c (by simp) hc)]
    · rw [if_neg hc]
      by_cases hcond : rest.Nodup ∧ ∀ d ∈ rest, d ∉ boardMap ++ [c]
      · rw [if_pos hcond]
        rw [if_pos ?side]
        · simp
        case side =>
          constructor
          · exact List.nodup_cons.mpr ⟨fun hmem => (hcond.2 c hmem) (by simp), hcond.1⟩
          · intro d hd
            rcases List.mem_cons.mp hd with rfl | hd2
            · exact hc
            · intro hdm; exact hcond.2 d hd2 (by simp [hdm])
      · rw [if_neg hcond]
        rw [if_neg ?side2]
        case side2 =>
          intro hcon
          refine hcond ⟨(List.nodup_cons.mp hcon.1).2, ?_⟩
          intro d hd
          simp only [List.mem_append, List.mem_singleton]
          rintro (hdm | rfl)
          · exact hcon.2 d (by simp [hd]) hdm
          · exact (List.nodup_cons.mp hcon.1).1 hd

theorem validateShips_ok_iff : ∀ (l : List (Ship × Nat)) (i : Nat) (boardMap : List Nat),
    (∃ m, validateShips i l boardMap = .ok m) ↔
      ((∀ p ∈ l, p.1.z ≤ 1 ∧ shipInRange p.1 p.2 = true) ∧
       (∀ p ∈ l, ∀ c ∈ shipCells p.1 p.2, c ∉ boardMap) ∧
       List.Pairwise (fun p q => ∀ c, c ∈ shipCells p.1 p.2 → c ∉ shipCells q.1 q.2) l) := by
  intro l
  induction l with
  | nil => intro i boardMap; simp [validateShips]
  | cons p rest ih =>
    intro i boardMap
    obtain ⟨ship, len⟩ := p
    simp only [validateShips]
    by_cases hz : 2 ≤ ship.z
    · rw [if_pos hz]
      constructor
      · rintro ⟨m, hm⟩; exact absurd hm (by simp)
      · rintro ⟨hall, _⟩
        have h5 : ship.z ≤ 1 := by simpa using (hall (ship, len) (by simp)).1
        omega
    · rw [if_neg hz]
      by_cases hr : shipInRange ship len = false
      · rw [if_pos hr]
        constructor
        · rintro ⟨m, hm⟩; exact absurd hm (by simp)
        · rintro ⟨hall, _⟩
          have h5 : shipInRange ship len = true := by
            simpa using (hall (ship, len) (by simp)).2
          rw [h5] at hr
          exact absurd hr (by simp)
      · rw [if_neg hr]
        rw [placeCells_characterization]
        by_cases hpl : (shipCells ship len).Nodup ∧ ∀ c ∈ shipCells ship len, c ∉ boardMap
        · rw [if_pos hpl]
          rw [ih (i + 1) (boardMap ++ shipCells ship len)]
          simp only [List.forall_mem_cons, List.pairwise_cons, List.mem_append, not_or]
          constructor
          · rintro ⟨h1, h2, h3⟩
            refine ⟨⟨⟨by omega, by revert hr; cases shipInRange ship len <;> simp⟩, h1⟩,
              ⟨hpl.2, fun q hq c hc => (h2 q hq c hc).1⟩, ?_, h3⟩
            intro q hq c hc hcq
            exact (h2 q hq c hcq).2 hc
          · rintro ⟨⟨hhead, h1⟩, ⟨hheadbm, h2⟩, h3, h4⟩
            refine ⟨h1, ?_, h4⟩
            intro q hq c hc
            exact ⟨h2 q hq c hc, fun hchead => h3 q hq c hchead hc⟩
        · rw [if_neg hpl]
          constructor
          · rintro ⟨m, hm⟩; exact absurd hm (by simp)
          · rintro ⟨_, h2, _⟩
            exact absurd ⟨shipCells_nodup ship len, h2 (ship, len) (by simp)⟩ hpl

theorem validateShips_collision_inv :
    ∀ (l : List (Ship × Nat)) (i : Nat) (boardMap : List Nat) (j : Nat),
    validateShips i l boardMap = .error (.collision j) →
    ∃ p, i ≤ j ∧ l.get? (j - i) = some p ∧ p.1.z ≤ 1 ∧ shipInRange p.1 p.2 = true := by
  intro l
  induction l with
  | nil => intro i bm j h; exact absurd h (by simp [validateShips])
  | cons p rest ih =>
    intro i bm j h
    obtain ⟨ship, len⟩ := p
    simp only [validateShips] at h
    by_cases hz : 2 ≤ ship.z
    · rw [if_pos hz] at h; exact absurd h (by simp)
    · rw [if_neg hz] at h
      by_cases hr : shipInRange ship len = false
      · rw [if_pos hr] at h; exact absurd h (by simp)
      · rw [if_neg hr] at h
        rcases hpl : placeCells (shipCells ship len) bm with _ | m
        · rw [hpl] at h
          simp only [Except.error.injEq, BoardFailure.collision.injEq] at h
          refine ⟨(ship, len), by omega, ?_, show ship.z ≤ 1 by omega,
            show shipInRange ship len = true by revert hr; cases shipInRange ship len <;> simp⟩
          rw [show j - i = 0 by omega]
          rfl
        · rw [hpl] at h
          obtain ⟨q, hij, hget, hq⟩ := ih (i + 1) m j h
          refine ⟨q, by omega, ?_, hq⟩
          rw [show j - i = (j - (i + 1)) + 1 by omega]
          simpa using hget

/-- C8: board validation accepts a deserialized five-ship layout exactly when
every ship passes the orientation and range rule and no two ships occupy a
common cell; on acceptance it returns the hash of the flattened coordinates,
and a collision error for a ship is only ever reported after that ship passed
its range check. -/
theorem c8_board_validation (hash : List Nat → Nat) (b : Nat) (ships : List Ship)
    (hdes : deserializeBoard b = some ships) :
    ((∃ bh, validateBoard hash b = .ok bh) ↔
      ((∀ p ∈ ships.zip shipLengths, p.1.z ≤ 1 ∧ shipInRange p.1 p.2 = true) ∧
       List.Pairwise (fun p q => ∀ c, c ∈ shipCells p.1 p.2 → c ∉ shipCells q.1 q.2)
         (ships.zip shipLengths))) ∧
    (∀ bh, validateBoard hash b = .ok bh → bh = hashShips hash ships) ∧
    (∀ j, validateBoard hash b = .error (.collision j) →
      ∃ p, (ships.zip shipLengths).get? j = some p ∧ p.1.z ≤ 1 ∧
        shipInRange p.1 p.2 = true) := by
  have hvb : validateBoard hash b =
      (match validateShipsLocation ships with
       | .error e => .error e
       | .ok _ => .ok (hashShips hash ships)) := by
    unfold validateBoard
    rw [hdes]
  refine ⟨⟨?_, ?_⟩, ?_, ?_⟩
  · rintro ⟨bh, hok⟩
    obtain ⟨ships2, m, hdes2, hval, hbh⟩ := validateBoard_ok_inv hok
    rw [hdes] at hdes2
    have he := Option.some.inj hdes2
    subst he
    have hch := (validateShips_ok_iff (ships.zip shipLengths) 0 []).mp ⟨m, hval⟩
    exact ⟨hch.1, hch.2.2⟩
  · rintro ⟨h1, h2⟩
    obtain ⟨m, hm⟩ := (validateShips_ok_iff (ships.zip shipLengths) 0 []).mpr
      ⟨h1, by simp, h2⟩
    have hm2 : validateShipsLocation ships = .ok m := hm
    rw [hvb, hm2]
    exact ⟨hashShips hash ships, rfl⟩
  · intro bh hok
    obtain ⟨ships2, m, hdes2, hval, hbh⟩ := validateBoard_ok_inv hok
    rw [hdes] at hdes2
    have he := Option.some.inj hdes2
    subst he
    exact hbh
  · intro j hcol
    rw [hvb] at hcol
    rcases hv : validateShipsLocation ships with e | m
    · rw [hv] at hcol
      simp only [Except.error.injEq] at hcol
      subst hcol
      obtain ⟨p, _, hget, hp⟩ := validateShips_collision_inv (ships.zip shipLengths) 0 [] j hv
      simp only [Nat.sub_zero] at hget
      exact ⟨p, hget, hp⟩
    · rw [hv] at hcol
      exact absurd hcol (by simp)
/-! Merkle witness soundness under a collision-free hash. -/

theorem merkle_witness_sound (hash : List Nat → Nat) (hc : PairColl hash) :
    ∀ (d : Nat) (w : List (Bool × Nat)) (f : Nat → Nat) (x : Nat),
      w.length = d → calcRoot hash w x = treeRoot hash d f →
      f (calcIndex w) = x ∧
      ∀ v, calcRoot hash w v = treeRoot hash d (Function.update f (calcIndex w) v) := by
  intro d
  induction d with
  | zero =>
    intro w f x hlen hroot
    rw [List.length_eq_zero] at hlen
    subst hlen
    simp only [calcRoot, treeRoot] at hroot
    constructor
    · simpa [calcIndex] using hroot.symm
    · intro v
      simp [calcRoot, treeRoot, calcIndex]
  | succ d ih =>
    intro w f x hlen hroot
    rcases w with _ | ⟨⟨bb, sib⟩, rest⟩
    · exact absurd hlen (by simp)
    · have hrlen : rest.length = d := by simpa using hlen
      cases bb with
      | true =>
        have hroot2 : calcRoot hash rest (hash [x, sib])
            = treeRoot hash d (fun j => hash [f (2 * j), f (2 * j + 1)]) := hroot
        obtain ⟨hfj, hupd⟩ := ih rest (fun j => hash [f (2 * j), f (2 * j + 1)])
          (hash [x, sib]) hrlen hroot2
        obtain ⟨hx, hs⟩ := hc _ _ _ _ hfj
        have hidx : calcIndex ((true, sib) :: rest) = 2 * calcIndex rest := by
          simp [calcIndex]
        constructor
        · rw [hidx]
          exact hx
        · intro v
          have hcv : calcRoot hash ((true, sib) :: rest) v
              = calcRoot hash rest (hash [v, sib]) := rfl
          rw [hcv, hupd (hash [v, sib]), hidx]
          show treeRoot hash d _ = treeRoot hash (d + 1) _
          simp only [treeRoot]
          congr 1
          funext k
          by_cases hk : k = calcIndex rest
          · subst hk
            rw [Function.update_same]
            rw [Function.update_same]
            rw [Function.update_noteq (by omega)]
            rw [hs]
          · rw [Function.update_noteq hk]
            rw [Function.update_noteq (by omega)]
            rw [Function.update_noteq (by omega)]
      | false =>
        have hroot2 : calcRoot hash rest (hash [sib, x])
            = treeRoot hash d (fun j => hash [f (2 * j), f (2 * j + 1)]) := hroot
        obtain ⟨hfj, hupd⟩ := ih rest (fun j => hash [f (2 * j), f (2 * j + 1)])
          (hash [sib, x]) hrlen hroot2
        obtain ⟨hs, hx⟩ := hc _ _ _ _ hfj
        have hidx : calcIndex ((false, sib) :: rest) = 2 * calcIndex rest + 1 := by
          simp [calcIndex]
          omega
        constructor
        · rw [hidx]
          exact hx
        · intro v
          have hcv : calcRoot hash ((false, sib) :: rest) v
              = calcRoot hash rest (hash [sib, v]) := rfl
          rw [hcv, hupd (hash [sib, v]), hidx]
          show treeRoot hash d _ = treeRoot hash (d + 1) _
          simp only [treeRoot]
          congr 1
          funext k
          by_cases hk : k = calcIndex rest
          · subst hk
            rw [Function.update_same]
            rw [Function.update_noteq (by omega)]
            rw [Function.update_same]
            rw [hs]
          · rw [Function.update_noteq hk]
            rw [Function.update_noteq (by omega)]
            rw [Function.update_noteq (by omega)]

/-! Tree synchronization: replaying accepted writes reproduces the roots. -/

theorem applyUpds_append (f : Nat → Nat) (l1 l2 : List (Nat × Nat)) :
    applyUpds f (l1 ++ l2) = applyUpds (applyUpds f l1) l2 := by
  induction l1 generalizing f with
  | nil => simp [applyUpds]
  | cons u rest ih => simp [applyUpds, ih]

theorem stepRoots {hash : List Nat → Nat} (hc : PairColl hash) {s : GameState} {m : Method}
    {s2 : GameState} {fT fH : Nat → Nat}
    (h : step hash s m = some s2)
    (hT : s.targetRoot = treeRoot hash 7 fT) (hH : s.hitRoot = treeRoot hash 7 fH) :
    s2.targetRoot = treeRoot hash 7 (applyUpds fT (targetUpdOf s m)) ∧
    s2.hitRoot = treeRoot hash 7 (applyUpds fH (hitUpdOf s s2 m)) := by
  cases m with
  | hostGame b salt sender =>
    obtain ⟨_, bh, _, hs2⟩ := hostStep_inv h
    subst hs2
    simp [targetUpdOf, hitUpdOf, applyUpds, hT, hH]
  | joinGame b salt sender =>
    obtain ⟨_, bh, _, hs2⟩ := joinStep_inv h
    subst hs2
    simp [targetUpdOf, hitUpdOf, applyUpds, hT, hH]
  | firstTurn t b salt sender tw =>
    obtain ⟨h0, _, _, hlen, hidx, hroot, hs2⟩ := firstTurnStep_inv h
    subst hs2
    rw [hT] at hroot
    obtain ⟨_, hupd⟩ := merkle_witness_sound hash hc 7 tw fT 0 hlen hroot
    constructor
    · show calcRoot hash tw t = _
      rw [hupd t, hidx]
      simp [targetUpdOf, applyUpds]
    · simp [hitUpdOf, applyUpds, hH]
  | attack t b salt sender tw hw =>
    obtain ⟨c1, c2, t1, t2, ships, pxy, hit, txy, cntE, cntO, u2, u1, tgtE, tgtO, newHist,
      hpos, hdes, hno, hsh, hid, hlenT, hlenH, hidxT, hidxH, hrootT, hrootH, hpt, hac,
      hce, hco, hdt, hnul, hu2, hu1, hte, hto, hser, hrange, hs2⟩ := attackStep_inv h
    subst hs2
    rw [hT] at hrootT
    rw [hH] at hrootH
    obtain ⟨_, hupdT⟩ := merkle_witness_sound hash hc 7 tw fT 0 hlenT hrootT
    obtain ⟨_, hupdH⟩ := merkle_witness_sound hash hc 7 hw fH 0 hlenH hrootH
    constructor
    · show calcRoot hash tw t = _
      rw [hupdT t, hidxT]
      simp [targetUpdOf, applyUpds]
    · show calcRoot hash hw (if hit then 1 else 0) = _
      rw [hupdH (if hit then 1 else 0), hidxH]
      simp [hitUpdOf, applyUpds]

theorem runC_roots {hash : List Nat → Nat} (hc : PairColl hash) :
    ∀ (ms : List Method) (s0 : GameState) (tU0 hU0 : List (Nat × Nat))
      (s : GameState) (tU hU : List (Nat × Nat)),
      runC hash s0 ms tU0 hU0 = some (s, tU, hU) →
      s0.targetRoot = treeRoot hash 7 (applyUpds (fun _ => 0) tU0) →
      s0.hitRoot = treeRoot hash 7 (applyUpds (fun _ => 0) hU0) →
      s.targetRoot = treeRoot hash 7 (applyUpds (fun _ => 0) tU) ∧
      s.hitRoot = treeRoot hash 7 (applyUpds (fun _ => 0) hU) := by
  intro ms
  induction ms with
  | nil =>
    intro s0 tU0 hU0 s tU hU h hT hH
    simp only [runC, Option.some.injEq, Prod.mk.injEq] at h
    obtain ⟨rfl, rfl, rfl⟩ := h
    exact ⟨hT, hH⟩
  | cons m rest ih =>
    intro s0 tU0 hU0 s tU hU h hT hH
    simp only [runC] at h
    rcases hst : step hash s0 m with _ | s1
    · rw [hst] at h
      exact absurd h (by simp)
    · rw [hst] at h
      obtain ⟨h1, h2⟩ := stepRoots hc hst hT hH
      refine ih s1 _ _ s tU hU h ?_ ?_
      · rw [h1, applyUpds_append]
      · rw [h2, applyUpds_append]

/-- C10: under a collision-free hash, after any accepted call sequence the
stored roots equal the roots obtained by replaying every accepted target
write (at leaf index = turn counter at acceptance) and every accepted hit
write (at leaf index = turn counter - 1) over the all-zero tree; moreover an
accepted firstTurn or attack call forces its witnesses to recompute the
stored roots over a zero old leaf. -/
theorem c10_tree_synchronization (hash : List Nat → Nat) (hc : PairColl hash) :
    (∀ ms s tU hU, runC hash (initGame hash) ms [] [] = some (s, tU, hU) →
      s.targetRoot = treeRoot hash 7 (applyUpds (fun _ => 0) tU) ∧
      s.hitRoot = treeRoot hash 7 (applyUpds (fun _ => 0) hU)) ∧
    (∀ s t b salt sender tw s2, firstTurnStep hash s t b salt sender tw = some s2 →
      calcRoot hash tw 0 = s.targetRoot) ∧
    (∀ s t b salt sender tw hw s2, attackStep hash s t b salt sender tw hw = some s2 →
      calcRoot hash tw 0 = s.targetRoot ∧ calcRoot hash hw 0 = s.hitRoot) := by
  refine ⟨?_, ?_, ?_⟩
  · intro ms s tU hU h
    exact runC_roots hc ms (initGame hash) [] [] s tU hU h rfl rfl
  · intro s t b salt sender tw s2 h
    exact (firstTurnStep_inv h).2.2.2.2.2.1
  · intro s t b salt sender tw hw s2 h
    obtain ⟨c1, c2, t1, t2, ships, pxy, hit, txy, cntE, cntO, u2, u1, tgtE, tgtO, newHist,
      hpos, hdes, hno, hsh, hid, hlenT, hlenH, hidxT, hidxH, hrootT, hrootH, hrest⟩ :=
      attackStep_inv h
    exact ⟨hrootT, hrootH⟩

/-! Hit-history invariant along reachable states. -/

theorem getD_set_list (l : List Nat) (j i v : Nat) :
    (l.set j v).getD i 0 = if j = i ∧ j < l.length then v else l.getD i 0 := by
  rw [List.getD_eq_getElem?_getD, List.getD_eq_getElem?_getD, List.getElem?_set]
  by_cases h : j = i
  · subst h
    by_cases h2 : j < l.length
    · simp [h2]
    · rw [if_pos rfl, if_neg h2, if_neg (by omega)]
      rw [List.getElem?_eq_none (by omega)]
  · rw [if_neg h, if_neg (by tauto)]

theorem set_getD_zero_eq {l : List Nat} {j : Nat} (h : l.getD j 0 = 0) : l.set j 0 = l := by
  apply List.ext_getElem?
  intro i
  rw [List.getElem?_set]
  by_cases hj : j = i
  · subst hj
    by_cases h2 : j < l.length
    · rw [if_pos rfl, if_pos h2]
      rw [List.getD_eq_getElem?_getD, List.getElem?_eq_getElem h2] at h
      simp only [Option.getD_some] at h
      rw [List.getElem?_eq_getElem h2, h]
    · rw [if_pos rfl, if_neg h2]
      rw [List.getElem?_eq_none (by omega)]
  · rw [if_neg hj]

theorem getD_zero_of_all {l : List Nat} (h : ∀ a ∈ l, a = 0) : ∀ i, l.getD i 0 = 0 := by
  intro i
  rcases Nat.lt_or_ge i l.length with hi | hi
  · rw [List.getD_eq_getElem?_getD, List.getElem?_eq_getElem hi]
    exact h _ (List.getElem_mem hi)
  · rw [List.getD_eq_getElem?_getD, List.getElem?_eq_none hi]
    rfl

theorem updateHitTargetHistory_inv {pxy : Nat × Nat} {hit : Bool} {l : List Nat} {i : Nat}
    {u : List Nat} (h : updateHitTargetHistory pxy hit l i = some u) :
    i < 17 ∧ u = l.set i (if hit then encodeHitTarget pxy else 0) := by
  simp only [updateHitTargetHistory, Option.ite_none_right_eq_some, Option.some.injEq] at h
  exact ⟨h.1, h.2.symm⟩

theorem deserializeHitHistory_inv {h : Nat} {c1 c2 : Nat} {t1 t2 : List Nat}
    (hd : deserializeHitHistory h = some ((c1, c2), (t1, t2))) :
    c1 < 32 ∧ c2 < 32 ∧ t1.length = 17 ∧ t2.length = 17 ∧
    (∀ a ∈ t1, a < 128) ∧ (∀ a ∈ t2, a < 128) := by
  simp only [deserializeHitHistory, Option.ite_none_right_eq_some, Option.some.injEq,
    Prod.mk.injEq] at hd
  obtain ⟨_, ⟨hc1, hc2⟩, ht1, ht2⟩ := hd
  subst hc1
  subst hc2
  subst ht1
  subst ht2
  refine ⟨bitSlice_lt h 0 5, bitSlice_lt h 5 5, deser17_length _, deser17_length _,
    deser17_lt _, deser17_lt _⟩

theorem attack_new_hist {hash : List Nat → Nat} {s : GameState} {t b salt : Nat}
    {sender : Nat × Nat} {tw hw : List (Bool × Nat)} {s2 : GameState} {c1 c2 : Nat}
    {t1 t2 : List Nat}
    (hacc : attackStep hash s t b salt sender tw hw = some s2)
    (hdes : deserializeHitHistory s.serializedHitHistory = some ((c1, c2), (t1, t2))) :
    ∃ ships pxy hit,
      deserializeBoard b = some ships ∧
      deserializeTarget s.target = some pxy ∧
      attackCircuit ships pxy = some hit ∧
      s2.hitResult = hit ∧ s2.turns = s.turns + 1 ∧ s2.target = t ∧
      ¬(c2 = 17 ∨ c1 = 17) ∧ c1 < 17 ∧ c2 < 17 ∧ pxy.1 < 10 ∧ pxy.2 < 10 ∧
      (s.turns % 2 = 0 →
        deserializeHitHistory s2.serializedHitHistory =
          some ((c1, c2 + (if hit then 1 else 0)),
                (t1, t2.set c2 (if hit then encodeHitTarget pxy else 0)))) ∧
      (s.turns % 2 ≠ 0 →
        deserializeHitHistory s2.serializedHitHistory =
          some ((c1 + (if hit then 1 else 0), c2),
                (t1.set c1 (if hit then encodeHitTarget pxy else 0), t2))) := by
  obtain ⟨c1a, c2a, t1a, t2a, ships, pxy, hit, txy, cntE, cntO, u2, u1, tgtE, tgtO, newHist,
    hpos, hdesa, hno, hsh, hid, hlenT, hlenH, hidxT, hidxH, hrootT, hrootH, hpt, hac,
    hce, hco, hdt, hnul, hu2, hu1, hte, hto, hser, hrange, hs2⟩ := attackStep_inv hacc
  rw [hdes] at hdesa
  have hinj := Option.some.inj hdesa
  simp only [Prod.mk.injEq] at hinj
  obtain ⟨⟨e1, e2⟩, e3, e4⟩ := hinj
  subst e1
  subst e2
  subst e3
  subst e4
  obtain ⟨hc2lt, hu2eq⟩ := updateHitTargetHistory_inv hu2
  obtain ⟨hc1lt, hu1eq⟩ := updateHitTargetHistory_inv hu1
  subst hu2eq
  subst hu1eq
  have hx10 : pxy.1 < 10 ∧ pxy.2 < 10 := by
    by_contra hcon
    rw [attackCircuit, if_neg (by tauto)] at hac
    exact absurd hac (by simp)
  refine ⟨ships, pxy, hit, hsh, hpt, hac, by rw [hs2], by rw [hs2], by rw [hs2],
    hno, hc1lt, hc2lt, hx10.1, hx10.2, ?_, ?_⟩
  · intro hpar
    simp only [hpar, if_pos rfl] at hser
    rw [hs2]
    show deserializeHitHistory newHist = _
    exact hitHistory_roundtrip hce hte hser
  · intro hpar
    have hparr : ¬(s.turns % 2 = 0) := hpar
    simp only [if_neg hparr] at hser
    rw [hs2]
    show deserializeHitHistory newHist = _
    exact hitHistory_roundtrip hco hto hser

theorem run_hist_inv (hash : List Nat → Nat) : ∀ (ms : List Method) (s0 s : GameState),
    run hash s0 ms = some s →
    (∃ c1 c2 t1 t2,
      deserializeHitHistory s0.serializedHitHistory = some ((c1, c2), (t1, t2)) ∧
      c1 ≤ 17 ∧ c2 ≤ 17 ∧
      (∀ i, c1 ≤ i → t1.getD i 0 = 0) ∧ (∀ i, c2 ≤ i → t2.getD i 0 = 0)) →
    (∃ c1 c2 t1 t2,
      deserializeHitHistory s.serializedHitHistory = some ((c1, c2), (t1, t2)) ∧
      c1 ≤ 17 ∧ c2 ≤ 17 ∧
      (∀ i, c1 ≤ i → t1.getD i 0 = 0) ∧ (∀ i, c2 ≤ i → t2.getD i 0 = 0)) := by
  intro ms
  induction ms with
  | nil =>
    intro s0 s h hin
    simp only [run] at h
    obtain rfl := Option.some.inj h
    exact hin
  | cons m rest ih =>
    intro s0 s h hin
    simp only [run] at h
    rcases hst : step hash s0 m with _ | s1
    · rw [hst] at h
      exact absurd h (by simp)
    · rw [hst] at h
      refine ih s1 s h ?_
      obtain ⟨c1, c2, t1, t2, hdes, hb1, hb2, hz1, hz2⟩ := hin
      cases m with
      | hostGame b salt sender =>
        obtain ⟨_, bh, _, hs2⟩ := hostStep_inv hst
        subst hs2
        exact ⟨c1, c2, t1, t2, hdes, hb1, hb2, hz1, hz2⟩
      | joinGame b salt sender =>
        obtain ⟨_, bh, _, hs2⟩ := joinStep_inv hst
        subst hs2
        exact ⟨c1, c2, t1, t2, hdes, hb1, hb2, hz1, hz2⟩
      | firstTurn t b salt sender tw =>
        obtain ⟨_, _, _, _, _, _, hs2⟩ := firstTurnStep_inv hst
        subst hs2
        exact ⟨c1, c2, t1, t2, hdes, hb1, hb2, hz1, hz2⟩
      | attack t b salt sender tw hw =>
        obtain ⟨ships, pxy, hit, _, _, _, _, _, _, hno, hc1, hc2, _, _, heven, hodd⟩ :=
          attack_new_hist hst hdes
        obtain ⟨_, _, hlen1, hlen2, _, _⟩ := deserializeHitHistory_inv hdes
        by_cases hpar : s0.turns % 2 = 0
        · refine ⟨c1, c2 + (if hit then 1 else 0), t1,
            t2.set c2 (if hit then encodeHitTarget pxy else 0), heven hpar, hb1,
            by cases hit <;> simp <;> omega, hz1, ?_⟩
          intro i hi
          rw [getD_set_list]
          by_cases hic : c2 = i
          · subst hic
            rw [if_pos ⟨rfl, by omega⟩]
            cases hit with
            | true => simp at hi
            | false => rfl
          · rw [if_neg (by tauto)]
            refine hz2 i (by cases hit <;> simp at hi <;> omega)
        · refine ⟨c1 + (if hit then 1 else 0), c2,
            t1.set c1 (if hit then encodeHitTarget pxy else 0), t2, hodd hpar,
            by cases hit <;> simp <;> omega, hb2, ?_, hz2⟩
          intro i hi
          rw [getD_set_list]
          by_cases hic : c1 = i
          · subst hic
            rw [if_pos ⟨rfl, by omega⟩]
            cases hit with
            | true => simp at hi
            | false => rfl
          · rw [if_neg (by tauto)]
            refine hz1 i (by cases hit <;> simp at hi <;> omega)

theorem reachable_hist_inv {hash : List Nat → Nat} {s : GameState} (hr : Reachable hash s) :
    ∃ c1 c2 t1 t2,
      deserializeHitHistory s.serializedHitHistory = some ((c1, c2), (t1, t2)) ∧
      c1 ≤ 17 ∧ c2 ≤ 17 ∧
      (∀ i, c1 ≤ i → t1.getD i 0 = 0) ∧ (∀ i, c2 ≤ i → t2.getD i 0 = 0) := by
  obtain ⟨ms, hrun⟩ := hr
  refine run_hist_inv hash ms (initGame hash) s hrun ?_
  have hdes0 : deserializeHitHistory (initGame hash).serializedHitHistory
      = some ((0, 0), (deser17 0, deser17 0)) := by
    show deserializeHitHistory 0 = some ((0, 0), (deser17 0, deser17 0))
    decide
  refine ⟨0, 0, deser17 0, deser17 0, hdes0, by omega, by omega, ?_, ?_⟩ <;>
  · intro i _
    refine getD_zero_of_all ?_ i
    intro a ha
    simp only [deser17, List.mem_map] at ha
    obtain ⟨k, _, rfl⟩ := ha
    simp [bitSlice]

/-! Claim theorems about the contract state machine, with witnesses. -/

/-- C4: in every reachable state neither hit counter exceeds 17, and once a
counter equals 17, every attack call is rejected outright (a rejected call
produces no successor state, leaving the state unchanged). -/
theorem c4_hit_counter_cap (hash : List Nat → Nat) :
    (∀ s c1 c2 t1 t2, Reachable hash s →
      deserializeHitHistory s.serializedHitHistory = some ((c1, c2), (t1, t2)) →
      c1 ≤ 17 ∧ c2 ≤ 17) ∧
    (∀ s t b salt sender tw hw c1 c2 t1 t2,
      deserializeHitHistory s.serializedHitHistory = some ((c1, c2), (t1, t2)) →
      (c1 = 17 ∨ c2 = 17) →
      attackStep hash s t b salt sender tw hw = none) := by
  constructor
  · intro s c1 c2 t1 t2 hr hdes
    obtain ⟨c1a, c2a, t1a, t2a, hdesa, hb1, hb2, _, _⟩ := reachable_hist_inv hr
    rw [hdes] at hdesa
    have hinj := Option.some.inj hdesa
    simp only [Prod.mk.injEq] at hinj
    obtain ⟨⟨e1, e2⟩, _, _⟩ := hinj
    omega
  · intro s t b salt sender tw hw c1 c2 t1 t2 hdes h17
    rcases ha : attackStep hash s t b salt sender tw hw with _ | s2
    · rfl
    · obtain ⟨c1a, c2a, t1a, t2a, ships, pxy, hit, txy, cntE, cntO, u2, u1, tgtE, tgtO,
        newHist, hpos, hdesa, hno, hrest⟩ := attackStep_inv ha
      rw [hdes] at hdesa
      have hinj := Option.some.inj hdesa
      simp only [Prod.mk.injEq] at hinj
      obtain ⟨⟨e1, e2⟩, _, _⟩ := hinj
      exact absurd (by omega : c2a = 17 ∨ c1a = 17) hno

/-- C6: an accepted attack from a reachable state resolves the stored
pending shot on the caller's own board, stores the hit bit, adds it to the
adversary's counter (player 2 on even turns, player 1 on odd turns) leaving
the caller's counter and log unchanged, and on a hit writes the encoded
pending target into the adversary's log at the index given by the
adversary's pre-update hit count, the log being unchanged on a miss. -/
theorem c6_attack_resolution (hash : List Nat → Nat) (s : GameState) (t b salt : Nat)
    (sender : Nat × Nat) (tw hw : List (Bool × Nat)) (s2 : GameState)
    (c1 c2 : Nat) (t1 t2 : List Nat) (ships : List Ship) (pxy : Nat × Nat) (hit : Bool)
    (hre : Reachable hash s)
    (hdes : deserializeHitHistory s.serializedHitHistory = some ((c1, c2), (t1, t2)))
    (hships : deserializeBoard b = some ships)
    (hpt : deserializeTarget s.target = some pxy)
    (hhit : attackCircuit ships pxy = some hit)
    (hacc : attackStep hash s t b salt sender tw hw = some s2) :
    s2.hitResult = hit ∧
    (s.turns % 2 = 0 →
      deserializeHitHistory s2.serializedHitHistory =
        some ((c1, c2 + (if hit then 1 else 0)),
              (t1, if hit then t2.set c2 (encodeHitTarget pxy) else t2))) ∧
    (s.turns % 2 = 1 →
      deserializeHitHistory s2.serializedHitHistory =
        some ((c1 + (if hit then 1 else 0), c2),
              (if hit then t1.set c1 (encodeHitTarget pxy) else t1, t2))) := by
  obtain ⟨ships2, pxy2, hit2, hships2, hpt2, hhit2, hres, _, _, hno, hc1, hc2, _, _,
    heven, hodd⟩ := attack_new_hist hacc hdes
  rw [hships] at hships2
  obtain rfl := Option.some.inj hships2
  rw [hpt] at hpt2
  obtain rfl := Option.some.inj hpt2
  rw [hhit] at hhit2
  obtain rfl := Option.some.inj hhit2
  obtain ⟨c1b, c2b, t1b, t2b, hdesb, _, _, hz1, hz2⟩ := reachable_hist_inv hre
  rw [hdes] at hdesb
  have hinj := Option.some.inj hdesb
  simp only [Prod.mk.injEq] at hinj
  obtain ⟨⟨e1, e2⟩, e3, e4⟩ := hinj
  subst e1
  subst e2
  subst e3
  subst e4
  obtain ⟨_, _, hlen1, hlen2, _, _⟩ := deserializeHitHistory_inv hdes
  refine ⟨hres, ?_, ?_⟩
  · intro hpar
    rw [heven hpar]
    cases hit with
    | true => simp
    | false =>
      simp only [Bool.false_eq_true, if_false]
      rw [set_getD_zero_eq (hz2 c2 (by omega))]
  · intro hpar
    rw [hodd (by omega)]
    cases hit with
    | true => simp
    | false =>
      simp only [Bool.false_eq_true, if_false]
      rw [set_getD_zero_eq (hz1 c1 (by omega))]

/-- C5: once a target's encoding sits in the firing player's hit log, that
player's attack reusing the exact target is rejected (even turns check
player 1's log, odd turns player 2's), while the concrete game shows the
opposing player firing that same coordinate successfully. -/
theorem c5_hit_nullification (hash : List Nat → Nat) :
    (∀ s t b salt sender tw hw c1 c2 t1 t2 tx ty,
      deserializeHitHistory s.serializedHitHistory = some ((c1, c2), (t1, t2)) →
      s.turns % 2 = 0 →
      deserializeTarget t = some (tx, ty) →
      encodeHitTarget (tx, ty) ∈ t1 →
      attackStep hash s t b salt sender tw hw = none) ∧
    (∀ s t b salt sender tw hw c1 c2 t1 t2 tx ty,
      deserializeHitHistory s.serializedHitHistory = some ((c1, c2), (t1, t2)) →
      s.turns % 2 = 1 →
      deserializeTarget t = some (tx, ty) →
      encodeHitTarget (tx, ty) ∈ t2 →
      attackStep hash s t b salt sender tw hw = none) ∧
    (st5.turns % 2 = 1 ∧
     deserializeHitHistory st5.serializedHitHistory
       = some ((1, 0), (deser17 10, deser17 0)) ∧
     encodeHitTarget (9, 0) ∈ deser17 10 ∧
     attackStep encodeList st5 9 joinSer 6 (3, 4) twD hwC = some st6) := by
  refine ⟨?_, ?_, rfl, by decide, by decide, rfl⟩
  · intro s t b salt sender tw hw c1 c2 t1 t2 tx ty hdes hpar hdt hmem
    rcases ha : attackStep hash s t b salt sender tw hw with _ | s2
    · rfl
    · obtain ⟨c1a, c2a, t1a, t2a, ships, pxy, hit, txy, cntE, cntO, u2, u1, tgtE, tgtO,
        newHist, hpos, hdesa, hno, hsh, hid, h1, h2, h3, h4, h5, h6, hpta, haca, hce,
        hco, hdta, hnul, hrest⟩ := attackStep_inv ha
      rw [hdes] at hdesa
      have hinj := Option.some.inj hdesa
      simp only [Prod.mk.injEq] at hinj
      obtain ⟨⟨e1, e2⟩, e3, e4⟩ := hinj
      subst e3
      rw [hdt] at hdta
      obtain rfl := Option.some.inj hdta
      rw [if_pos hpar] at hnul
      simp only [validateHitTargetUniqueness, decide_eq_false_iff_not] at hnul
      exact absurd hmem hnul
  · intro s t b salt sender tw hw c1 c2 t1 t2 tx ty hdes hpar hdt hmem
    rcases ha : attackStep hash s t b salt sender tw hw with _ | s2
    · rfl
    · obtain ⟨c1a, c2a, t1a, t2a, ships, pxy, hit, txy, cntE, cntO, u2, u1, tgtE, tgtO,
        newHist, hpos, hdesa, hno, hsh, hid, h1, h2, h3, h4, h5, h6, hpta, haca, hce,
        hco, hdta, hnul, hrest⟩ := attackStep_inv ha
      rw [hdes] at hdesa
      have hinj := Option.some.inj hdesa
      simp only [Prod.mk.injEq] at hinj
      obtain ⟨⟨e1, e2⟩, e3, e4⟩ := hinj
      subst e4
      rw [hdt] at hdta
      obtain rfl := Option.some.inj hdta
      rw [if_neg (by omega)] at hnul
      simp only [validateHitTargetUniqueness, decide_eq_false_iff_not] at hnul
      exact absurd hmem hnul

/-- encodeList is injective, hence collision free on pairs. -/
theorem encodeList_inj : ∀ (l1 l2 : List Nat), encodeList l1 = encodeList l2 → l1 = l2 := by
  intro l1
  induction l1 with
  | nil =>
    intro l2 h
    cases l2 with
    | nil => rfl
    | cons c rest => simp [encodeList] at h
  | cons a r1 ih =>
    intro l2 h
    cases l2 with
    | nil => simp [encodeList] at h
    | cons c r2 =>
      simp only [encodeList, Nat.add_right_cancel_iff] at h
      obtain ⟨h1, h2⟩ := Nat.pair_eq_pair.mp h
      rw [h1, ih r2 h2]

/-- encodeList satisfies the pairwise collision-freeness assumption. -/
theorem encodeList_pairColl : PairColl encodeList := by
  intro a b c d h
  have := encodeList_inj [a, b] [c, d] h
  simp only [List.cons.injEq, and_true] at this
  exact this

/-- C1: hostGame and joinGame store hash(boardHash, address, salt) as the
player identity, firstTurn and attack rederive exactly that hash from the
caller's board, address and salt and compare it to the stored id of the
eligible player, and under a collision-free hash the id determines board
hash, address and salt. -/
theorem c1_salted_identity (hash : List Nat → Nat) :
    (∀ s b salt sender s2, hostStep hash s b salt sender = some s2 →
      s.player1Id = 0 ∧ generatePlayerId hash b sender salt = some s2.player1Id) ∧
    (∀ s b salt sender s2, joinStep hash s b salt sender = some s2 →
      s.player2Id = 0 ∧ generatePlayerId hash b sender salt = some s2.player2Id) ∧
    (∀ s t b salt sender tw s2, firstTurnStep hash s t b salt sender tw = some s2 →
      generatePlayerId hash b sender salt = some s.player1Id) ∧
    (∀ s t b salt sender tw hw s2, attackStep hash s t b salt sender tw hw = some s2 →
      generatePlayerId hash b sender salt
        = some (if s.turns % 2 = 0 then s.player1Id else s.player2Id)) ∧
    ((∀ l1 l2 : List Nat, l1.length = 4 → hash l1 = hash l2 → l1 = l2) →
      ∀ b b2 salt salt2 sender sender2 i,
        generatePlayerId hash b sender salt = some i →
        generatePlayerId hash b2 sender2 salt2 = some i →
        hashSerialized hash b = hashSerialized hash b2 ∧ sender = sender2 ∧ salt = salt2) := by
  refine ⟨?_, ?_, ?_, ?_, ?_⟩
  · intro s b salt sender s2 h
    obtain ⟨h0, bh, hvb, hs2⟩ := hostStep_inv h
    obtain ⟨ships, m, hdes, _, hbh⟩ := validateBoard_ok_inv hvb
    subst hs2
    refine ⟨h0, ?_⟩
    simp [generatePlayerId, hashSerialized, hdes, hbh]
  · intro s b salt sender s2 h
    obtain ⟨h0, bh, hvb, hs2⟩ := joinStep_inv h
    obtain ⟨ships, m, hdes, _, hbh⟩ := validateBoard_ok_inv hvb
    subst hs2
    refine ⟨h0, ?_⟩
    simp [generatePlayerId, hashSerialized, hdes, hbh]
  · intro s t b salt sender tw s2 h
    exact (firstTurnStep_inv h).2.1
  · intro s t b salt sender tw hw s2 h
    obtain ⟨c1a, c2a, t1a, t2a, ships, pxy, hit, txy, cntE, cntO, u2, u1, tgtE, tgtO,
      newHist, hpos, hdesa, hno, hsh, hid, hrest⟩ := attackStep_inv h
    simp [generatePlayerId, hashSerialized, hsh, hid]
  · intro hinj b b2 salt salt2 sender sender2 i h1 h2
    simp only [generatePlayerId, Option.map_eq_some'] at h1 h2
    obtain ⟨bh, hbh, hi⟩ := h1
    obtain ⟨bh2, hbh2, hi2⟩ := h2
    have : ([bh, sender.1, sender.2, salt] : List Nat)
        = [bh2, sender2.1, sender2.2, salt2] := by
      refine hinj _ _ (by simp) ?_
      rw [hi, hi2]
    simp only [List.cons.injEq, and_true] at this
    obtain ⟨e1, e2, e3, e4⟩ := this
    exact ⟨by rw [hbh, hbh2, e1], Prod.ext e2 e3, e4⟩

/-- C2 counterexample: from the freshly initialized state with no host
registered, joinGame is accepted and leaves player2Id nonzero while
player1Id is still zero, so joining does not require a host. -/
theorem c2_join_before_host_counterexample :
    (initGame encodeList).player1Id = 0 ∧
    joinStep encodeList (initGame encodeList) joinSer 6 (3, 4) = some cJoinState ∧
    cJoinState.player2Id ≠ 0 ∧ cJoinState.player1Id = 0 := by
  refine ⟨rfl, rfl, ?_, rfl⟩
  decide

/-- C2 amended: joinGame acceptance depends only on the joiner slot being
empty and the board validating; no host registration is required, and an
accepted join leaves the host slot and turn counter untouched while storing
the derived joiner id. -/
theorem c2_join_requires_empty_slot_only (hash : List Nat → Nat) (s : GameState)
    (b salt : Nat) (sender : Nat × Nat) :
    ((∃ s2, joinStep hash s b salt sender = some s2) ↔
      (s.player2Id = 0 ∧ ∃ bh, validateBoard hash b = .ok bh)) ∧
    (∀ s2, joinStep hash s b salt sender = some s2 →
      s2.player1Id = s.player1Id ∧ s2.turns = s.turns ∧
      ∃ bh, validateBoard hash b = .ok bh ∧
        s2.player2Id = hash [bh, sender.1, sender.2, salt]) := by
  constructor
  · constructor
    · rintro ⟨s2, h⟩
      obtain ⟨h0, bh, hvb, _⟩ := joinStep_inv h
      exact ⟨h0, bh, hvb⟩
    · rintro ⟨h0, bh, hvb⟩
      refine ⟨{ s with player2Id := hash [bh, sender.1, sender.2, salt] }, ?_⟩
      unfold joinStep
      rw [if_pos h0, hvb]
      rfl
  · intro s2 h
    obtain ⟨h0, bh, hvb, hs2⟩ := joinStep_inv h
    subst hs2
    exact ⟨rfl, rfl, bh, hvb, rfl⟩

/-- C3: the turn counter starts at 0, registration calls leave it
unchanged, and every accepted firstTurn or attack call increments it by
exactly one while being authorized by the derived identity of the player
matching the pre-call parity: player 1 on even counters (firstTurn requires
counter 0), player 2 on odd counters. -/
theorem c3_turn_monotonic_parity (hash : List Nat → Nat) :
    (initGame hash).turns = 0 ∧
    (∀ s b salt sender s2, hostStep hash s b salt sender = some s2 → s2.turns = s.turns) ∧
    (∀ s b salt sender s2, joinStep hash s b salt sender = some s2 → s2.turns = s.turns) ∧
    (∀ s t b salt sender tw s2, firstTurnStep hash s t b salt sender tw = some s2 →
      s2.turns = s.turns + 1 ∧ s.turns % 2 = 0 ∧
      generatePlayerId hash b sender salt = some s.player1Id) ∧
    (∀ s t b salt sender tw hw s2, attackStep hash s t b salt sender tw hw = some s2 →
      s2.turns = s.turns + 1 ∧
      generatePlayerId hash b sender salt
        = some (if s.turns % 2 = 0 then s.player1Id else s.player2Id)) := by
  refine ⟨rfl, ?_, ?_, ?_, ?_⟩
  · intro s b salt sender s2 h
    obtain ⟨_, bh, _, hs2⟩ := hostStep_inv h
    subst hs2
    rfl
  · intro s b salt sender s2 h
    obtain ⟨_, bh, _, hs2⟩ := joinStep_inv h
    subst hs2
    rfl
  · intro s t b salt sender tw s2 h
    obtain ⟨h0, hpid, _, _, _, _, hs2⟩ := firstTurnStep_inv h
    subst hs2
    exact ⟨rfl, by omega, hpid⟩
  · intro s t b salt sender tw hw s2 h
    obtain ⟨c1a, c2a, t1a, t2a, ships, pxy, hit, txy, cntE, cntO, u2, u1, tgtE, tgtO,
      newHist, hpos, hdesa, hno, hsh, hid, h1, h2, h3, h4, h5, h6, hpta, haca, hce,
      hco, hdta, hnul, hu2, hu1, hte, hto, hser, hrange, hs2⟩ := attackStep_inv h
    subst hs2
    refine ⟨rfl, ?_⟩
    simp [generatePlayerId, hashSerialized, hsh, hid]

/-- C7 witness on the concrete host board. -/
theorem c7_attack_resolver_witness :
    ((attackCircuit hostShips (0, 0) = some true) ↔
      (∃ p ∈ hostShips.zip shipLengths, 0 + 10 * 0 ∈ shipCells p.1 p.2)) ∧
    attackCircuit hostShips (12, 5) = none :=
  ⟨(c7_attack_resolver hostShips (0, 0) (by decide)).1 (by decide) (by decide),
   (c7_attack_resolver hostShips (12, 5) (by decide)).2 (by decide)⟩

/-- C8 witness on the concrete host board. -/
theorem c8_board_validation_witness :
    deserializeBoard hostSer = some hostShips ∧
    (∃ bh, validateBoard encodeList hostSer = Except.ok bh) :=
  ⟨by decide, ((c8_board_validation encodeList hostSer hostShips (by decide)).1).mpr
    (by decide)⟩

/-- C10 witness on the concrete six-call game. -/
theorem c10_tree_synchronization_witness :
    runC encodeList (initGame encodeList) gameTrace [] [] = some gameRunC ∧
    gameRunC.1.targetRoot = treeRoot encodeList 7 (applyUpds (fun _ => 0) gameRunC.2.1) ∧
    gameRunC.1.hitRoot = treeRoot encodeList 7 (applyUpds (fun _ => 0) gameRunC.2.2) := by
  have happ := (c10_tree_synchronization encodeList encodeList_pairColl).1 gameTrace
    gameRunC.1 gameRunC.2.1 gameRunC.2.2 (by rfl)
  exact ⟨rfl, happ.1, happ.2⟩

/-- C4 witness: a reachable state and a rejected attack at counter 17. -/
theorem c4_hit_counter_cap_witness :
    Reachable encodeList st4 ∧ (1 ≤ 17 ∧ 0 ≤ 17) ∧
    attackStep encodeList gOverState 9 hostSer 5 (1, 2) twA hwA = none := by
  refine ⟨⟨[mv1, mv2, mv3, mv4], rfl⟩, ?_, ?_⟩
  · exact (c4_hit_counter_cap encodeList).1 st4 1 0 (deser17 10) (deser17 0)
      ⟨[mv1, mv2, mv3, mv4], rfl⟩ (by decide)
  · exact (c4_hit_counter_cap encodeList).2 gOverState 9 hostSer 5 (1, 2) twA hwA
      17 0 (deser17 0) (deser17 0) (by decide) (Or.inl rfl)

/-- C6 witness on the sixth call of the concrete game. -/
theorem c6_attack_resolution_witness :
    Reachable encodeList st5 ∧ st6.hitResult = false ∧
    (st5.turns % 2 = 1 →
      deserializeHitHistory st6.serializedHitHistory =
        some ((1 + (if false then 1 else 0), 0),
              (if false then (deser17 10).set 1 (encodeHitTarget (5, 5)) else deser17 10,
               deser17 0))) := by
  have happ := c6_attack_resolution encodeList st5 9 joinSer 6 (3, 4) twD hwC st6
    1 0 (deser17 10) (deser17 0) joinShips (5, 5) false
    ⟨gameTrace5, rfl⟩ (by decide) (by decide) rfl (by decide) rfl
  exact ⟨⟨gameTrace5, rfl⟩, happ.1, happ.2.2⟩

/-- C5 witness: the host may not refire its logged hit (9, 0). -/
theorem c5_hit_nullification_witness :
    st6.turns % 2 = 0 ∧ encodeHitTarget (9, 0) ∈ deser17 10 ∧
    attackStep encodeList st6 9 hostSer 5 (1, 2) twA hwA = none := by
  refine ⟨rfl, by decide, ?_⟩
  exact (c5_hit_nullification encodeList).1 st6 9 hostSer 5 (1, 2) twA hwA
    1 0 (deser17 10) (deser17 0) 9 0 (by decide) rfl rfl (by decide)

/-- C1 witness on the concrete game prefix. -/
theorem c1_salted_identity_witness :
    ((initGame encodeList).player1Id = 0 ∧
      generatePlayerId encodeList hostSer (1, 2) 5 = some st1.player1Id) ∧
    (st1.player2Id = 0 ∧
      generatePlayerId encodeList joinSer (3, 4) 6 = some st2.player2Id) ∧
    generatePlayerId encodeList hostSer (1, 2) 5 = some st2.player1Id ∧
    generatePlayerId encodeList joinSer (3, 4) 6
      = some (if st3.turns % 2 = 0 then st3.player1Id else st3.player2Id) ∧
    (hashSerialized encodeList hostSer = hashSerialized encodeList hostSer ∧
      ((1, 2) : Nat × Nat) = (1, 2) ∧ (5 : Nat) = 5) := by
  have hc := c1_salted_identity encodeList
  have h1 := hc.1 (initGame encodeList) hostSer 5 (1, 2) st1 rfl
  refine ⟨h1, hc.2.1 st1 joinSer 6 (3, 4) st2 rfl,
    hc.2.2.1 st2 9 hostSer 5 (1, 2) twA st3 rfl,
    hc.2.2.2.1 st3 9 joinSer 6 (3, 4) twB hwA st4 rfl,
    hc.2.2.2.2 (fun l1 l2 _ h => encodeList_inj l1 l2 h) hostSer hostSer 5 5 (1, 2) (1, 2)
      st1.player1Id h1.2 h1.2⟩

/-- C2 witness: the accepted join from the initialized state. -/
theorem c2_join_requires_empty_slot_only_witness :
    cJoinState.player1Id = (initGame encodeList).player1Id ∧
    cJoinState.turns = (initGame encodeList).turns ∧
    ∃ bh, validateBoard encodeList joinSer = Except.ok bh ∧
      cJoinState.player2Id = encodeList [bh, 3, 4, 6] :=
  (c2_join_requires_empty_slot_only encodeList (initGame encodeList) joinSer 6 (3, 4)).2
    cJoinState rfl

/-- C3 witness on the concrete game prefix. -/
theorem c3_turn_monotonic_parity_witness :
    (initGame encodeList).turns = 0 ∧ st1.turns = (initGame encodeList).turns ∧
    st2.turns = st1.turns ∧
    (st3.turns = st2.turns + 1 ∧ st2.turns % 2 = 0 ∧
      generatePlayerId encodeList hostSer (1, 2) 5 = some st2.player1Id) ∧
    (st4.turns = st3.turns + 1 ∧
      generatePlayerId encodeList joinSer (3, 4) 6
        = some (if st3.turns % 2 = 0 then st3.player1Id else st3.player2Id)) := by
  have hc := c3_turn_monotonic_parity encodeList
  exact ⟨hc.1, hc.2.1 (initGame encodeList) hostSer 5 (1, 2) st1 rfl,
    hc.2.2.1 st1 joinSer 6 (3, 4) st2 rfl,
    hc.2.2.2.1 st2 9 hostSer 5 (1, 2) twA st3 rfl,
    hc.2.2.2.2 st3 9 joinSer 6 (3, 4) twB hwA st4 rfl⟩

end Battleships
